import Mathlib

/-!
Shallow embedding of the monthly budget simulation engine
(`src/services/simulationEngine.ts`, together with the earlier engine variant
kept in `src/unnamed/part_002`) and proofs of the specification claims.

JavaScript numbers are modelled as exact rationals; the calendar behaviour of
the JavaScript `Date` runtime (month lengths with leap years, weekday lookup)
is modelled by the standard Gregorian rules; `Math.round` is modelled by
`fun x => ⌊x + 1 / 2⌋` (round to nearest, ties toward positive infinity).
-/

/-- `TransactionType` from `src/types.ts`. -/
inductive TransactionType
  | INCOME
  | EXPENSE
  | SAVING
deriving DecidableEq

/-- `SpendFrequency` from `src/types.ts`. -/
inductive SpendFrequency
  | ONCE
  | WEEKLY
deriving DecidableEq

/-- `WeeklyBehavior` from `src/types.ts`. -/
inductive WeeklyBehavior
  | SMOOTH
  | LUMP_SUM
deriving DecidableEq

/-- `Transaction` from `src/types.ts`; the optional fields `dayOfWeek` and
`weeklyBehavior` are `Option`-valued exactly as in the TypeScript interface. -/
structure Transaction where
  id : String
  name : String
  amount : ℚ
  type : TransactionType
  dayOfMonth : ℕ
  dayOfWeek : Option ℕ
  frequency : SpendFrequency
  weeklyBehavior : Option WeeklyBehavior
  category : String
deriving DecidableEq

/-- `ActualEntry` from `src/types.ts`. -/
structure ActualEntry where
  day : ℕ
  value : ℚ
deriving DecidableEq

/-- `SimulationPoint` from `src/types.ts`; the optional `actualBalance` field is
`Option`-valued. -/
structure SimulationPoint where
  date : String
  dayNumber : ℕ
  balance : ℚ
  actualBalance : Option ℚ
  dailyDelta : ℚ
  cumulativeIncome : ℚ
  cumulativeExpenses : ℚ
deriving DecidableEq

/-- `WeeklySimulationPoint` from `src/types.ts`. -/
structure WeeklySimulationPoint where
  weekLabel : String
  balance : ℚ
  actualBalance : Option ℚ
  income : ℚ
  expenses : ℚ
deriving DecidableEq

/-- Gregorian leap-year rule, as implemented by the JavaScript `Date` runtime
that the engine delegates its calendar arithmetic to. -/
def isLeapYear (year : ℕ) : Bool :=
  (year % 4 == 0 && year % 100 != 0) || year % 400 == 0

/-- The month length `new Date(year, month + 1, 0).getDate()` used by both
engine versions; `month` is 0-based (0 = January), as in JavaScript. -/
def daysInMonth (year month : ℕ) : ℕ :=
  if month = 1 then (if isLeapYear year then 29 else 28)
  else if month = 3 ∨ month = 5 ∨ month = 8 ∨ month = 10 then 30
  else 31

/-- Month offsets of Sakamoto's weekday formula (index = 0-based month). -/
def sakamotoOffsets : List ℕ := [0, 3, 2, 5, 0, 3, 5, 1, 4, 6, 2, 4]

/-- The weekday `new Date(year, month, day).getDay()` (0 = Sunday … 6 =
Saturday) of the Gregorian date with 0-based `month`, computed by Sakamoto's
method (valid for `year ≥ 1`, the range the application ever passes). -/
def dayOfWeek (year month day : ℕ) : ℕ :=
  let m := month + 1
  let y := if m < 3 then year - 1 else year
  (y + y / 4 + y / 400 + sakamotoOffsets.getD (m - 1) 0 + day - y / 100) % 7

/-- JavaScript `Math.round`: nearest integer, ties toward positive infinity. -/
def jsRound (x : ℚ) : ℤ := ⌊x + 1 / 2⌋

/-- `Math.round(x * 100) / 100`, the 2-decimal rounding the engine applies to
every numeric field just before storing it in a point. -/
def round2 (x : ℚ) : ℚ := (jsRound (x * 100) : ℚ) / 100

/-- Signed contribution of one transaction to `dailyDelta` on a given day,
mirroring the rule evaluation inside the daily loop of
`calculateDailySimulation` (`src/services/simulationEngine.ts`, lines 42-68):
`dow` is the weekday of the current date; the pre-computed `smoothRates[idx]`
is inlined as `t.amount / 7`; the outer `else` branch corresponds to
`t.frequency === SpendFrequency.WEEKLY`, the only other constructor. -/
def txDelta (dow day : ℕ) (t : Transaction) : ℚ :=
  if t.frequency = SpendFrequency.ONCE then
    if t.dayOfMonth = day then
      (if t.type = TransactionType.INCOME then t.amount else -t.amount)
    else 0
  else
    if t.weeklyBehavior = some WeeklyBehavior.SMOOTH then
      (if t.type = TransactionType.INCOME then t.amount / 7 else -(t.amount / 7))
    else
      if dow = t.dayOfWeek.getD 1 then
        (if t.type = TransactionType.INCOME then t.amount else -t.amount)
      else 0

/-- Amount one transaction adds to the running `cumulativeIncome` on a given
day (`0` when the rule does not fire or is not income). -/
def txIncome (dow day : ℕ) (t : Transaction) : ℚ :=
  if t.frequency = SpendFrequency.ONCE then
    if t.dayOfMonth = day ∧ t.type = TransactionType.INCOME then t.amount else 0
  else
    if t.weeklyBehavior = some WeeklyBehavior.SMOOTH then
      (if t.type = TransactionType.INCOME then t.amount / 7 else 0)
    else
      if dow = t.dayOfWeek.getD 1 ∧ t.type = TransactionType.INCOME then t.amount
      else 0

/-- Amount one transaction adds to the running `cumulativeExpenses` on a given
day (`Expense` and `Saving` alike accrue here). -/
def txExpense (dow day : ℕ) (t : Transaction) : ℚ :=
  if t.frequency = SpendFrequency.ONCE then
    if t.dayOfMonth = day ∧ t.type ≠ TransactionType.INCOME then t.amount else 0
  else
    if t.weeklyBehavior = some WeeklyBehavior.SMOOTH then
      (if t.type = TransactionType.INCOME then 0 else t.amount / 7)
    else
      if dow = t.dayOfWeek.getD 1 ∧ t.type ≠ TransactionType.INCOME then t.amount
      else 0

/-- Net `dailyDelta` accumulated by the `transactions.forEach` of the daily
loop on a given day. -/
def dayDelta (year month : ℕ) (ts : List Transaction) (day : ℕ) : ℚ :=
  (ts.map (txDelta (dayOfWeek year month day) day)).sum

/-- Total added to `cumulativeIncome` on a given day. -/
def dayIncome (year month : ℕ) (ts : List Transaction) (day : ℕ) : ℚ :=
  (ts.map (txIncome (dayOfWeek year month day) day)).sum

/-- Total added to `cumulativeExpenses` on a given day. -/
def dayExpense (year month : ℕ) (ts : List Transaction) (day : ℕ) : ℚ :=
  (ts.map (txExpense (dayOfWeek year month day) day)).sum

/-- Per-transaction contribution inside the reality-projection inner loop of
`calculateDailySimulation` (`src/services/simulationEngine.ts`, lines 88-95),
kept as a separate definition because the source spells the logic out a second
time there. -/
def projTxDelta (dDow d : ℕ) (t : Transaction) : ℚ :=
  if t.frequency = SpendFrequency.ONCE ∧ t.dayOfMonth = d then
    (if t.type = TransactionType.INCOME then t.amount else -t.amount)
  else if t.frequency = SpendFrequency.WEEKLY then
    if t.weeklyBehavior = some WeeklyBehavior.SMOOTH then
      (if t.type = TransactionType.INCOME then t.amount / 7 else -(t.amount / 7))
    else
      if dDow = t.dayOfWeek.getD 1 then
        (if t.type = TransactionType.INCOME then t.amount else -t.amount)
      else 0
  else 0

/-- `actualEntries.reduce((prev, current) => (prev.day > current.day) ? prev :
current)` guarded by the emptiness check (ties keep `current`, i.e. the later
entry in list order). -/
def latestActual : List ActualEntry → Option ActualEntry
  | [] => none
  | e :: es =>
    some (es.foldl (fun prev current => if prev.day > current.day then prev else current) e)

/-- The inner loop `for (d = latestActual.day + 1; d <= day; d++)` accumulating
`projectedDeltaSinceReal`. -/
def projectedDeltaSinceReal (year month : ℕ) (ts : List Transaction)
    (startDay day : ℕ) : ℚ :=
  ((List.range' (startDay + 1) (day - startDay)).map
    (fun d => (ts.map (projTxDelta (dayOfWeek year month d) d)).sum)).sum

/-- The per-day `actualValue` variable of `calculateDailySimulation` before the
2-decimal storage rounding: the first matching observed entry wins, otherwise a
projection from the latest observed entry on strictly later days. -/
def actualValueFor (year month : ℕ) (ts : List Transaction)
    (entries : List ActualEntry) (day : ℕ) : Option ℚ :=
  match entries.find? (fun e => e.day == day) with
  | some m => some m.value
  | none =>
    match latestActual entries with
    | some la =>
      if day > la.day then
        some (la.value + projectedDeltaSinceReal year month ts la.day day)
      else none
    | none => none

/-- The daily loop of `calculateDailySimulation`, written as a recursion on the
number of remaining days; `day` is the current 1-based day and the three
rational accumulators are the running `plannedBalance`, `cumulativeIncome` and
`cumulativeExpenses`. -/
def simLoop (year month : ℕ) (ts : List Transaction) (entries : List ActualEntry) :
    ℕ → ℕ → ℚ → ℚ → ℚ → List SimulationPoint
  | 0, _, _, _, _ => []
  | n + 1, day, plannedBalance, cumIncome, cumExpenses =>
    let dailyDelta := dayDelta year month ts day
    let newBalance := plannedBalance + dailyDelta
    let newIncome := cumIncome + dayIncome year month ts day
    let newExpenses := cumExpenses + dayExpense year month ts day
    { date := toString day
      dayNumber := day
      balance := round2 newBalance
      actualBalance := (actualValueFor year month ts entries day).map round2
      dailyDelta := round2 dailyDelta
      cumulativeIncome := round2 newIncome
      cumulativeExpenses := round2 newExpenses } ::
      simLoop year month ts entries n (day + 1) newBalance newIncome newExpenses

/-- `calculateDailySimulation` from `src/services/simulationEngine.ts` (the
TypeScript default `actualEntries = []` is passed explicitly by the model's
callers). -/
def calculateDailySimulation (initialBalance : ℚ) (year month : ℕ)
    (transactions : List Transaction) (actualEntries : List ActualEntry) :
    List SimulationPoint :=
  simLoop year month transactions actualEntries (daysInMonth year month) 1
    initialBalance 0 0

/-- The daily loop of the earlier engine version (`src/unnamed/part_002`),
which has no observed-entry reconciliation: its points are pushed without an
`actualBalance` field. -/
def simLoopV0 (year month : ℕ) (ts : List Transaction) :
    ℕ → ℕ → ℚ → ℚ → ℚ → List SimulationPoint
  | 0, _, _, _, _ => []
  | n + 1, day, currentBalance, cumIncome, cumExpenses =>
    let dailyDelta := dayDelta year month ts day
    let newBalance := currentBalance + dailyDelta
    let newIncome := cumIncome + dayIncome year month ts day
    let newExpenses := cumExpenses + dayExpense year month ts day
    { date := toString day
      dayNumber := day
      balance := round2 newBalance
      actualBalance := none
      dailyDelta := round2 dailyDelta
      cumulativeIncome := round2 newIncome
      cumulativeExpenses := round2 newExpenses } ::
      simLoopV0 year month ts n (day + 1) newBalance newIncome newExpenses

/-- `calculateDailySimulation` from `src/unnamed/part_002`, the near-duplicate
engine version without observed entries. -/
def calculateDailySimulationV0 (initialBalance : ℚ) (year month : ℕ)
    (transactions : List Transaction) : List SimulationPoint :=
  simLoopV0 year month transactions (daysInMonth year month) 1 initialBalance 0 0

/-- One weekly point built from a chunk of up to 7 daily points;
`chunk[chunk.length - 1]` is modelled by `getLastD` (the default is never
reached on the non-empty chunks the loop produces). -/
def mkWeeklyPoint (weekIndex : ℕ) (chunk : List SimulationPoint) :
    WeeklySimulationPoint :=
  let lastPoint := chunk.getLastD
    { date := "", dayNumber := 0, balance := 0, actualBalance := none,
      dailyDelta := 0, cumulativeIncome := 0, cumulativeExpenses := 0 }
  { weekLabel := "Week " ++ toString weekIndex
    balance := lastPoint.balance
    actualBalance := lastPoint.actualBalance
    income := round2 (chunk.foldl
      (fun sum p => sum + (if p.dailyDelta > 0 then p.dailyDelta else 0)) 0)
    expenses := round2 (chunk.foldl
      (fun sum p => sum + (if p.dailyDelta < 0 then |p.dailyDelta| else 0)) 0) }

/-- The chunking loop `for (i = 0; i < dailyPoints.length; i += 7)` of
`aggregateToWeekly`, carrying `currentWeekIndex`. -/
def aggLoop : ℕ → List SimulationPoint → List WeeklySimulationPoint
  | _, [] => []
  | weekIndex, p :: rest =>
    mkWeeklyPoint weekIndex ((p :: rest).take 7) ::
      aggLoop (weekIndex + 1) ((p :: rest).drop 7)
termination_by _ pts => pts.length
decreasing_by simp; omega

/-- `aggregateToWeekly` from `src/services/simulationEngine.ts`. -/
def aggregateToWeekly (dailyPoints : List SimulationPoint) :
    List WeeklySimulationPoint :=
  aggLoop 1 dailyPoints

/-- Spec-side firing condition of a rule on day `d` of `(year, month)`
(§4.1 of the specification): a `Once` rule fires iff `dayOfMonth = d`, a
`Weekly`+`Smooth` rule fires every day, and a `Weekly`+`LumpSum` rule fires iff
the weekday of the date equals the rule's `dayOfWeek` (absent `dayOfWeek`
defaulting to Monday = 1, the engine's resolution checked by claim C9). -/
def ruleFires (year month day : ℕ) (t : Transaction) : Bool :=
  match t.frequency, t.weeklyBehavior with
  | SpendFrequency.ONCE, _ => t.dayOfMonth == day
  | SpendFrequency.WEEKLY, some WeeklyBehavior.SMOOTH => true
  | SpendFrequency.WEEKLY, _ => dayOfWeek year month day == t.dayOfWeek.getD 1

/-- Spec-side unsigned magnitude a firing rule moves: the pre-derived daily
rate `amount / 7` for `Weekly`+`Smooth` rules, the full `amount` otherwise. -/
def ruleRate (t : Transaction) : ℚ :=
  match t.frequency, t.weeklyBehavior with
  | SpendFrequency.WEEKLY, some WeeklyBehavior.SMOOTH => t.amount / 7
  | _, _ => t.amount

/-- Spec-side signed contribution of a rule on a day: `+rate` for income,
`-rate` otherwise, and `0` when the rule does not fire. -/
def ruleSigned (year month day : ℕ) (t : Transaction) : ℚ :=
  if ruleFires year month day t then
    (if t.type = TransactionType.INCOME then ruleRate t else -(ruleRate t))
  else 0

/-- Spec-side unsigned magnitude a rule adds to `cumulativeIncome` on a day. -/
def ruleIncomeMag (year month day : ℕ) (t : Transaction) : ℚ :=
  if ruleFires year month day t ∧ t.type = TransactionType.INCOME then ruleRate t
  else 0

/-- Spec-side unsigned magnitude a rule adds to `cumulativeExpenses` on a day
(`Saving` accrues on the expense side). -/
def ruleExpenseMag (year month day : ℕ) (t : Transaction) : ℚ :=
  if ruleFires year month day t ∧ t.type ≠ TransactionType.INCOME then ruleRate t
  else 0

/-- Reference rounding for claim C6: 2-decimal round-half-away-from-zero. -/
def roundHalfAwayFromZero2 (x : ℚ) : ℚ :=
  if x < 0 then -((⌊-x * 100 + 1 / 2⌋ : ℚ) / 100) else (⌊x * 100 + 1 / 2⌋ : ℚ) / 100

/-- Round-half-to-even to the nearest integer. -/
def roundHalfEvenInt (x : ℚ) : ℤ :=
  if x - ⌊x⌋ < 1 / 2 then ⌊x⌋
  else if x - ⌊x⌋ > 1 / 2 then ⌊x⌋ + 1
  else if ⌊x⌋ % 2 = 0 then ⌊x⌋ else ⌊x⌋ + 1

/-- Reference rounding for claim C6: 2-decimal banker's rounding. -/
def roundBankers2 (x : ℚ) : ℚ := (roundHalfEvenInt (x * 100) : ℚ) / 100

/-- A concrete `Once` expense of `23/8 = 2.875` — an exact half-cent amount —
scheduled on day 1, used to exhibit the engine's tie-breaking behaviour. -/
def halfCentExpense : Transaction :=
  { id := "w1", name := "half cent", amount := 23 / 8,
    type := TransactionType.EXPENSE, dayOfMonth := 1, dayOfWeek := none,
    frequency := SpendFrequency.ONCE, weeklyBehavior := none, category := "Other" }

/-- A concrete weekly smooth income of 7 per week (rate 1 per day). -/
def smoothIncome7 : Transaction :=
  { id := "w2", name := "smooth income", amount := 7,
    type := TransactionType.INCOME, dayOfMonth := 1, dayOfWeek := none,
    frequency := SpendFrequency.WEEKLY, weeklyBehavior := some WeeklyBehavior.SMOOTH,
    category := "Work" }

/-- A concrete weekly lump-sum income whose `dayOfWeek` field is absent. -/
def lumpNoDow : Transaction :=
  { id := "w3", name := "lump income", amount := 50,
    type := TransactionType.INCOME, dayOfMonth := 1, dayOfWeek := none,
    frequency := SpendFrequency.WEEKLY, weeklyBehavior := some WeeklyBehavior.LUMP_SUM,
    category := "Work" }

theorem txDelta_eq_ruleSigned (year month day : ℕ) (t : Transaction) :
    txDelta (dayOfWeek year month day) day t = ruleSigned year month day t := by
  rcases t with ⟨id, name, amount, ty, dom, dow, freq, wb, cat⟩
  cases freq <;> rcases wb with _ | wb <;> try cases wb
  all_goals simp [txDelta, ruleSigned, ruleFires, ruleRate]

theorem txIncome_eq_ruleIncomeMag (year month day : ℕ) (t : Transaction) :
    txIncome (dayOfWeek year month day) day t = ruleIncomeMag year month day t := by
  rcases t with ⟨id, name, amount, ty, dom, dow, freq, wb, cat⟩
  cases freq <;> rcases wb with _ | wb <;> try cases wb
  all_goals simp [txIncome, ruleIncomeMag, ruleFires, ruleRate]

theorem txExpense_eq_ruleExpenseMag (year month day : ℕ) (t : Transaction) :
    txExpense (dayOfWeek year month day) day t = ruleExpenseMag year month day t := by
  rcases t with ⟨id, name, amount, ty, dom, dow, freq, wb, cat⟩
  cases freq <;> rcases wb with _ | wb <;> try cases wb
  all_goals simp [txExpense, ruleExpenseMag, ruleFires, ruleRate]

theorem projTxDelta_eq_txDelta (dow day : ℕ) (t : Transaction) :
    projTxDelta dow day t = txDelta dow day t := by
  rcases t with ⟨id, name, amount, ty, dom, dw, freq, wb, cat⟩
  cases freq <;> rcases wb with _ | wb <;> try cases wb
  all_goals simp [projTxDelta, txDelta]

theorem sum_shift (f : ℕ → ℚ) (day i : ℕ) :
    f day + ∑ j ∈ Finset.range (i + 1), f (day + 1 + j) =
      ∑ j ∈ Finset.range (i + 1 + 1), f (day + j) := by
  rw [Finset.sum_range_succ' (fun j => f (day + j)) (i + 1)]
  simp only [Nat.add_zero]
  rw [add_comm]
  congr 1
  refine Finset.sum_congr rfl fun j _ => ?_
  congr 1
  omega

theorem simLoop_length (year month : ℕ) (ts : List Transaction)
    (entries : List ActualEntry) :
    ∀ (n day : ℕ) (pb ci ce : ℚ),
      (simLoop year month ts entries n day pb ci ce).length = n := by
  intro n
  induction n with
  | zero => intro day pb ci ce; rfl
  | succ n ih => intro day pb ci ce; simp [simLoop, ih]

theorem simLoop_get (year month : ℕ) (ts : List Transaction)
    (entries : List ActualEntry) :
    ∀ (n i day : ℕ) (pb ci ce : ℚ)
      (hi : i < (simLoop year month ts entries n day pb ci ce).length),
      (simLoop year month ts entries n day pb ci ce).get ⟨i, hi⟩ =
        { date := toString (day + i)
          dayNumber := day + i
          balance := round2 (pb + ∑ j ∈ Finset.range (i + 1), dayDelta year month ts (day + j))
          actualBalance := (actualValueFor year month ts entries (day + i)).map round2
          dailyDelta := round2 (dayDelta year month ts (day + i))
          cumulativeIncome := round2 (ci + ∑ j ∈ Finset.range (i + 1), dayIncome year month ts (day + j))
          cumulativeExpenses := round2 (ce + ∑ j ∈ Finset.range (i + 1), dayExpense year month ts (day + j)) } := by
  intro n
  induction n with
  | zero => intro i day pb ci ce hi; simp [simLoop] at hi
  | succ n ih =>
    intro i day pb ci ce hi
    cases i with
    | zero =>
      simp [simLoop, Finset.sum_range_one]
    | succ i =>
      have hi' : i < (simLoop year month ts entries n (day + 1)
          (pb + dayDelta year month ts day) (ci + dayIncome year month ts day)
          (ce + dayExpense year month ts day)).length := by
        simp [simLoop_length]
        simpa [simLoop, simLoop_length] using hi
      have h := ih i (day + 1) (pb + dayDelta year month ts day)
        (ci + dayIncome year month ts day) (ce + dayExpense year month ts day) hi'
      simp only [simLoop, List.get_cons_succ]
      rw [h]
      have hshift : day + 1 + i = day + (i + 1) := by omega
      simp only [SimulationPoint.mk.injEq]
      refine ⟨by rw [hshift], by rw [hshift], ?_, by rw [hshift], by rw [hshift], ?_, ?_⟩
      · rw [add_assoc, sum_shift]
      · rw [add_assoc, sum_shift]
      · rw [add_assoc, sum_shift]

theorem calculateDailySimulation_length (init : ℚ) (year month : ℕ)
    (ts : List Transaction) (es : List ActualEntry) :
    (calculateDailySimulation init year month ts es).length = daysInMonth year month := by
  simp [calculateDailySimulation, simLoop_length]

theorem calculateDailySimulation_get (init : ℚ) (year month : ℕ)
    (ts : List Transaction) (es : List ActualEntry) (i : ℕ)
    (hi : i < (calculateDailySimulation init year month ts es).length) :
    (calculateDailySimulation init year month ts es).get ⟨i, hi⟩ =
      { date := toString (i + 1)
        dayNumber := i + 1
        balance := round2 (init + ∑ j ∈ Finset.range (i + 1), dayDelta year month ts (j + 1))
        actualBalance := (actualValueFor year month ts es (i + 1)).map round2
        dailyDelta := round2 (dayDelta year month ts (i + 1))
        cumulativeIncome := round2 (∑ j ∈ Finset.range (i + 1), dayIncome year month ts (j + 1))
        cumulativeExpenses := round2 (∑ j ∈ Finset.range (i + 1), dayExpense year month ts (j + 1)) } := by
  have h := simLoop_get year month ts es (daysInMonth year month) i 1 init 0 0 hi
  have hcomm : 1 + i = i + 1 := Nat.add_comm 1 i
  show (simLoop year month ts es (daysInMonth year month) 1 init 0 0).get ⟨i, hi⟩ = _
  rw [h, hcomm]
  have hsum : ∀ f : ℕ → ℚ,
      (∑ j ∈ Finset.range (i + 1), f (1 + j)) = ∑ j ∈ Finset.range (i + 1), f (j + 1) :=
    fun f => Finset.sum_congr rfl fun j _ => by rw [Nat.add_comm]
  rw [hsum (dayDelta year month ts), hsum (dayIncome year month ts),
    hsum (dayExpense year month ts), zero_add, zero_add]

theorem latestFold_eq_or_mem (es : List ActualEntry) :
    ∀ acc : ActualEntry,
      es.foldl (fun prev current => if prev.day > current.day then prev else current) acc = acc ∨
      es.foldl (fun prev current => if prev.day > current.day then prev else current) acc ∈ es := by
  induction es with
  | nil => intro acc; left; rfl
  | cons e es ih =>
    intro acc
    simp only [List.foldl_cons]
    rcases ih (if acc.day > e.day then acc else e) with h | h
    · rw [h]
      by_cases hc : acc.day > e.day
      · left; simp [hc]
      · right; simp [hc]
    · right; exact List.mem_cons_of_mem _ h

theorem latestFold_acc_le (es : List ActualEntry) :
    ∀ acc : ActualEntry,
      acc.day ≤
        (es.foldl (fun prev current => if prev.day > current.day then prev else current) acc).day := by
  induction es with
  | nil => intro acc; exact le_refl _
  | cons e es ih =>
    intro acc
    simp only [List.foldl_cons]
    refine le_trans ?_ (ih (if acc.day > e.day then acc else e))
    by_cases hc : acc.day > e.day <;> simp [hc] <;> omega

theorem latestFold_mem_le (es : List ActualEntry) :
    ∀ (acc e : ActualEntry), e ∈ es →
      e.day ≤
        (es.foldl (fun prev current => if prev.day > current.day then prev else current) acc).day := by
  induction es with
  | nil => intro acc e he; cases he
  | cons a es ih =>
    intro acc e he
    simp only [List.foldl_cons]
    rcases List.mem_cons.mp he with rfl | he
    · refine le_trans ?_ (latestFold_acc_le es _)
      by_cases hc : acc.day > e.day <;> simp [hc] <;> omega
    · exact ih _ e he

theorem latestFold_all_lt (es : List ActualEntry) :
    ∀ acc : ActualEntry, (∀ e ∈ es, e.day < acc.day) →
      es.foldl (fun prev current => if prev.day > current.day then prev else current) acc = acc := by
  induction es with
  | nil => intro acc _; rfl
  | cons e es ih =>
    intro acc h
    simp only [List.foldl_cons]
    have he : e.day < acc.day := h e (List.mem_cons_self e es)
    rw [if_pos he]
    exact ih acc fun x hx => h x (List.mem_cons_of_mem _ hx)

theorem latestActual_mem {es : List ActualEntry} {la : ActualEntry}
    (h : latestActual es = some la) : la ∈ es := by
  cases es with
  | nil => cases h
  | cons e es =>
    simp only [latestActual, Option.some.injEq] at h
    rcases latestFold_eq_or_mem es e with h' | h'
    · rw [h'] at h; rw [← h]; exact List.mem_cons_self _ _
    · rw [← h]; exact List.mem_cons_of_mem _ h'

theorem latestActual_le {es : List ActualEntry} {la : ActualEntry}
    (h : latestActual es = some la) : ∀ e ∈ es, e.day ≤ la.day := by
  cases es with
  | nil => cases h
  | cons a es =>
    simp only [latestActual, Option.some.injEq] at h
    intro e he
    rcases List.mem_cons.mp he with rfl | he
    · rw [← h]; exact latestFold_acc_le es e
    · rw [← h]; exact latestFold_mem_le es a e he

theorem latestActual_last_max (es₁ es₂ : List ActualEntry) (la : ActualEntry)
    (hmax : ∀ e ∈ es₁ ++ la :: es₂, e.day ≤ la.day)
    (hafter : ∀ e ∈ es₂, e.day < la.day) :
    latestActual (es₁ ++ la :: es₂) = some la := by
  cases es₁ with
  | nil =>
    simp only [List.nil_append, latestActual, Option.some.injEq]
    exact latestFold_all_lt es₂ la hafter
  | cons h t =>
    simp only [List.cons_append, latestActual, Option.some.injEq, List.foldl_append,
      List.foldl_cons]
    set A := t.foldl (fun prev current => if prev.day > current.day then prev else current) h with hA
    have hAle : A.day ≤ la.day := by
      rcases latestFold_eq_or_mem t h with h' | h'
      · rw [hA, h']
        exact hmax h (by simp)
      · rw [hA]
        refine hmax _ ?_
        rw [← hA] at h' ⊢
        exact List.mem_append_left _ (List.mem_cons_of_mem _ h')
    rw [if_neg (by omega)]
    exact latestFold_all_lt es₂ la hafter

theorem find?_append_first (l₁ l₂ : List ActualEntry) (a : ActualEntry)
    (p : ActualEntry → Bool) (h₁ : ∀ x ∈ l₁, p x = false) (ha : p a = true) :
    (l₁ ++ a :: l₂).find? p = some a := by
  induction l₁ with
  | nil => simp [List.find?, ha]
  | cons x l₁ ih =>
    have hx : p x = false := h₁ x (List.mem_cons_self x l₁)
    simp only [List.cons_append, List.find?, hx]
    exact ih fun y hy => h₁ y (List.mem_cons_of_mem _ hy)

theorem nodup_day_inj {es : List ActualEntry}
    (h : (es.map ActualEntry.day).Nodup) :
    ∀ a ∈ es, ∀ b ∈ es, a.day = b.day → a = b := by
  induction es with
  | nil => intro a ha; cases ha
  | cons e es ih =>
    rw [List.map_cons, List.nodup_cons] at h
    intro a ha b hb hab
    rcases List.mem_cons.mp ha with rfl | ha2
    · rcases List.mem_cons.mp hb with rfl | hb2
      · rfl
      · exact (h.1 (List.mem_map.mpr ⟨b, hb2, hab.symm⟩)).elim
    · rcases List.mem_cons.mp hb with rfl | hb2
      · exact (h.1 (List.mem_map.mpr ⟨a, ha2, hab⟩)).elim
      · exact ih h.2 a ha2 b hb2 hab

theorem projDaySum_eq_dayDelta (year month : ℕ) (ts : List Transaction) (d : ℕ) :
    (ts.map (projTxDelta (dayOfWeek year month d) d)).sum = dayDelta year month ts d := by
  have h : projTxDelta (dayOfWeek year month d) d = txDelta (dayOfWeek year month d) d :=
    funext (projTxDelta_eq_txDelta _ _)
  rw [dayDelta, h]

theorem projectedDeltaSinceReal_self (year month : ℕ) (ts : List Transaction) (s : ℕ) :
    projectedDeltaSinceReal year month ts s s = 0 := by
  simp [projectedDeltaSinceReal]

theorem projectedDeltaSinceReal_succ (year month : ℕ) (ts : List Transaction)
    (s d : ℕ) (h : s ≤ d) :
    projectedDeltaSinceReal year month ts s (d + 1) =
      projectedDeltaSinceReal year month ts s d + dayDelta year month ts (d + 1) := by
  unfold projectedDeltaSinceReal
  have h1 : d + 1 - s = (d - s) + 1 := by omega
  rw [h1, List.range'_1_concat]
  have h2 : s + 1 + (d - s) = d + 1 := by omega
  rw [h2, List.map_append, List.sum_append]
  simp [projDaySum_eq_dayDelta]

theorem projectedDeltaSinceReal_eq_Icc (year month : ℕ) (ts : List Transaction)
    (s : ℕ) : ∀ k : ℕ,
    projectedDeltaSinceReal year month ts s (s + k) =
      ∑ x ∈ Finset.Icc (s + 1) (s + k), dayDelta year month ts x := by
  intro k
  induction k with
  | zero =>
    rw [Finset.Icc_eq_empty (by omega)]
    simpa using projectedDeltaSinceReal_self year month ts s
  | succ k ih =>
    have h3 : s + (k + 1) = (s + k) + 1 := by omega
    rw [h3, projectedDeltaSinceReal_succ year month ts s (s + k) (by omega), ih,
      Finset.sum_Icc_succ_top (by omega)]

theorem actualValueFor_matching (year month : ℕ) (ts : List Transaction)
    (es : List ActualEntry) (day : ℕ) (e : ActualEntry)
    (h : es.find? (fun e => e.day == day) = some e) :
    actualValueFor year month ts es day = some e.value := by
  simp [actualValueFor, h]

theorem actualValueFor_proj (year month : ℕ) (ts : List Transaction)
    (es : List ActualEntry) (day : ℕ) (la : ActualEntry)
    (hnone : ∀ e ∈ es, e.day ≠ day) (hla : latestActual es = some la)
    (hgt : la.day < day) :
    actualValueFor year month ts es day =
      some (la.value + projectedDeltaSinceReal year month ts la.day day) := by
  have hf : es.find? (fun e => e.day == day) = none :=
    List.find?_eq_none.mpr fun e he => by simpa using hnone e he
  simp [actualValueFor, hf, hla, hgt]

theorem actualValueFor_before (year month : ℕ) (ts : List Transaction)
    (es : List ActualEntry) (day : ℕ) (la : ActualEntry)
    (hnone : ∀ e ∈ es, e.day ≠ day) (hla : latestActual es = some la)
    (hlt : day < la.day) :
    actualValueFor year month ts es day = none := by
  have hf : es.find? (fun e => e.day == day) = none :=
    List.find?_eq_none.mpr fun e he => by simpa using hnone e he
  simp [actualValueFor, hf, hla]
  omega

theorem foldl_add_map (f : SimulationPoint → ℚ) :
    ∀ (l : List SimulationPoint) (a : ℚ),
      l.foldl (fun sum p => sum + f p) a = a + (l.map f).sum := by
  intro l
  induction l with
  | nil => intro a; simp
  | cons p l ih => intro a; simp [ih, add_assoc]

theorem aggLoop_length : ∀ (n w : ℕ) (pts : List SimulationPoint),
    pts.length ≤ n → (aggLoop w pts).length = (pts.length + 6) / 7 := by
  intro n
  induction n with
  | zero =>
    intro w pts h
    have h0 : pts = [] := List.length_eq_zero.mp (by omega)
    subst h0
    simp [aggLoop]
  | succ n ih =>
    intro w pts h
    cases pts with
    | nil => simp [aggLoop]
    | cons p rest =>
      rw [aggLoop]
      have hlen : ((p :: rest).drop 7).length ≤ n := by
        simp only [List.length_drop, List.length_cons]
        simp only [List.length_cons] at h
        omega
      rw [List.length_cons, ih (w + 1) _ hlen]
      simp only [List.length_drop, List.length_cons]
      omega

theorem aggLoop_get : ∀ (n w : ℕ) (pts : List SimulationPoint), pts.length ≤ n →
    ∀ (k : ℕ) (hk : k < (aggLoop w pts).length),
      (aggLoop w pts).get ⟨k, hk⟩ = mkWeeklyPoint (w + k) ((pts.drop (7 * k)).take 7) := by
  intro n
  induction n with
  | zero =>
    intro w pts h k hk
    have h0 : pts = [] := List.length_eq_zero.mp (by omega)
    subst h0
    simp [aggLoop] at hk
  | succ n ih =>
    intro w pts h k hk
    cases pts with
    | nil => simp [aggLoop] at hk
    | cons p rest =>
      have hunf : aggLoop w (p :: rest) =
          mkWeeklyPoint w ((p :: rest).take 7) :: aggLoop (w + 1) ((p :: rest).drop 7) := by
        rw [aggLoop]
      cases k with
      | zero =>
        rw [List.get_of_eq hunf]
        simp
      | succ k =>
        have hk' : k < (aggLoop (w + 1) ((p :: rest).drop 7)).length := by
          rw [hunf] at hk
          simpa using hk
        have h' : ((p :: rest).drop 7).length ≤ n := by
          simp only [List.length_drop, List.length_cons]
          simp only [List.length_cons] at h
          omega
        have hrec := ih (w + 1) ((p :: rest).drop 7) h' k hk'
        rw [List.get_of_eq hunf, List.get_cons_succ]
        rw [hrec]
        have hsh : w + 1 + k = w + (k + 1) := by omega
        have hdrop : ((p :: rest).drop 7).drop (7 * k) = (p :: rest).drop (7 * (k + 1)) := by
          rw [List.drop_drop]
          congr 1
          omega
        rw [hsh, hdrop]

theorem dayDelta_eq_ruleSigned_sum (year month : ℕ) (ts : List Transaction) (d : ℕ) :
    dayDelta year month ts d = (ts.map (ruleSigned year month d)).sum := by
  have h : txDelta (dayOfWeek year month d) d = ruleSigned year month d :=
    funext (txDelta_eq_ruleSigned year month d)
  rw [dayDelta, h]

theorem dayIncome_eq_ruleIncomeMag_sum (year month : ℕ) (ts : List Transaction) (d : ℕ) :
    dayIncome year month ts d = (ts.map (ruleIncomeMag year month d)).sum := by
  have h : txIncome (dayOfWeek year month d) d = ruleIncomeMag year month d :=
    funext (txIncome_eq_ruleIncomeMag year month d)
  rw [dayIncome, h]

theorem dayExpense_eq_ruleExpenseMag_sum (year month : ℕ) (ts : List Transaction) (d : ℕ) :
    dayExpense year month ts d = (ts.map (ruleExpenseMag year month d)).sum := by
  have h : txExpense (dayOfWeek year month d) d = ruleExpenseMag year month d :=
    funext (txExpense_eq_ruleExpenseMag year month d)
  rw [dayExpense, h]

theorem simLoop_empty_eq_simLoopV0 (year month : ℕ) (ts : List Transaction) :
    ∀ (n day : ℕ) (pb ci ce : ℚ),
      simLoop year month ts [] n day pb ci ce = simLoopV0 year month ts n day pb ci ce := by
  intro n
  induction n with
  | zero => intro day pb ci ce; rfl
  | succ n ih =>
    intro day pb ci ce
    simp [simLoop, simLoopV0, actualValueFor, latestActual, ih]

theorem dayDelta_congr_middle (year month : ℕ) (ts₁ ts₂ : List Transaction)
    (t t' : Transaction) (h : ∀ dow d, txDelta dow d t = txDelta dow d t') (d : ℕ) :
    dayDelta year month (ts₁ ++ t :: ts₂) d = dayDelta year month (ts₁ ++ t' :: ts₂) d := by
  simp [dayDelta, List.map_append, h]

theorem dayIncome_congr_middle (year month : ℕ) (ts₁ ts₂ : List Transaction)
    (t t' : Transaction) (h : ∀ dow d, txIncome dow d t = txIncome dow d t') (d : ℕ) :
    dayIncome year month (ts₁ ++ t :: ts₂) d = dayIncome year month (ts₁ ++ t' :: ts₂) d := by
  simp [dayIncome, List.map_append, h]

theorem dayExpense_congr_middle (year month : ℕ) (ts₁ ts₂ : List Transaction)
    (t t' : Transaction) (h : ∀ dow d, txExpense dow d t = txExpense dow d t') (d : ℕ) :
    dayExpense year month (ts₁ ++ t :: ts₂) d = dayExpense year month (ts₁ ++ t' :: ts₂) d := by
  simp [dayExpense, List.map_append, h]

theorem proj_congr_middle (year month : ℕ) (ts₁ ts₂ : List Transaction)
    (t t' : Transaction) (h : ∀ dow d, projTxDelta dow d t = projTxDelta dow d t')
    (s d : ℕ) :
    projectedDeltaSinceReal year month (ts₁ ++ t :: ts₂) s d =
      projectedDeltaSinceReal year month (ts₁ ++ t' :: ts₂) s d := by
  simp [projectedDeltaSinceReal, List.map_append, h]

theorem actualValueFor_congr_middle (year month : ℕ) (ts₁ ts₂ : List Transaction)
    (t t' : Transaction) (h : ∀ dow d, projTxDelta dow d t = projTxDelta dow d t')
    (es : List ActualEntry) (d : ℕ) :
    actualValueFor year month (ts₁ ++ t :: ts₂) es d =
      actualValueFor year month (ts₁ ++ t' :: ts₂) es d := by
  unfold actualValueFor
  cases es.find? (fun e => e.day == d) with
  | some m => rfl
  | none =>
    cases latestActual es with
    | none => rfl
    | some la => simp [proj_congr_middle year month ts₁ ts₂ t t' h]

theorem simLoop_congr_middle (year month : ℕ) (ts₁ ts₂ : List Transaction)
    (t t' : Transaction) (es : List ActualEntry)
    (hd : ∀ dow d, txDelta dow d t = txDelta dow d t')
    (hi : ∀ dow d, txIncome dow d t = txIncome dow d t')
    (he : ∀ dow d, txExpense dow d t = txExpense dow d t')
    (hp : ∀ dow d, projTxDelta dow d t = projTxDelta dow d t') :
    ∀ (n day : ℕ) (pb ci ce : ℚ),
      simLoop year month (ts₁ ++ t :: ts₂) es n day pb ci ce =
        simLoop year month (ts₁ ++ t' :: ts₂) es n day pb ci ce := by
  intro n
  induction n with
  | zero => intro day pb ci ce; rfl
  | succ n ih =>
    intro day pb ci ce
    simp only [simLoop]
    rw [dayDelta_congr_middle year month ts₁ ts₂ t t' hd,
      dayIncome_congr_middle year month ts₁ ts₂ t t' hi,
      dayExpense_congr_middle year month ts₁ ts₂ t t' he,
      actualValueFor_congr_middle year month ts₁ ts₂ t t' hp, ih]

theorem simLoopV0_congr_middle (year month : ℕ) (ts₁ ts₂ : List Transaction)
    (t t' : Transaction)
    (hd : ∀ dow d, txDelta dow d t = txDelta dow d t')
    (hi : ∀ dow d, txIncome dow d t = txIncome dow d t')
    (he : ∀ dow d, txExpense dow d t = txExpense dow d t') :
    ∀ (n day : ℕ) (pb ci ce : ℚ),
      simLoopV0 year month (ts₁ ++ t :: ts₂) n day pb ci ce =
        simLoopV0 year month (ts₁ ++ t' :: ts₂) n day pb ci ce := by
  intro n
  induction n with
  | zero => intro day pb ci ce; rfl
  | succ n ih =>
    intro day pb ci ce
    simp only [simLoopV0]
    rw [dayDelta_congr_middle year month ts₁ ts₂ t t' hd,
      dayIncome_congr_middle year month ts₁ ts₂ t t' hi,
      dayExpense_congr_middle year month ts₁ ts₂ t t' he, ih]

theorem simLoopV0_actualBalance_none (year month : ℕ) (ts : List Transaction) :
    ∀ (n day : ℕ) (pb ci ce : ℚ),
      ∀ p ∈ simLoopV0 year month ts n day pb ci ce, p.actualBalance = none := by
  intro n
  induction n with
  | zero => intro day pb ci ce p hp; cases hp
  | succ n ih =>
    intro day pb ci ce p hp
    rcases List.mem_cons.mp hp with rfl | hp
    · rfl
    · exact ih (day + 1) _ _ _ p hp

theorem jsRound_eq (x : ℚ) (z : ℤ) (h1 : (z : ℚ) ≤ x + 1 / 2) (h2 : x + 1 / 2 < z + 1) :
    jsRound x = z := by
  rw [jsRound]
  exact Int.floor_eq_iff.mpr ⟨h1, h2⟩

theorem round2_eq (x : ℚ) (z : ℤ) (h1 : (z : ℚ) ≤ x * 100 + 1 / 2)
    (h2 : x * 100 + 1 / 2 < z + 1) : round2 x = (z : ℚ) / 100 := by
  rw [round2, jsRound_eq (x * 100) z h1 h2]


/-- C1: for every day of the month, the stored `dailyDelta` of that day's point
is the 2-decimal storage rounding (spec §4.1c) of the sum over all rules of
their signed contribution on that day — a `Once` rule fires iff its
`dayOfMonth` equals the day (a `dayOfMonth` beyond the month length never
fires), a `Weekly`+`Smooth` rule fires every day contributing `amount / 7`, a
`Weekly`+`LumpSum` rule fires iff the date's weekday equals its `dayOfWeek`,
with sign `+` for income and `-` otherwise — and the stored cumulative fields
are the rounded running totals of the firing rules' unsigned magnitudes,
income-kind rules accruing into `cumulativeIncome` and expense- or saving-kind
rules into `cumulativeExpenses`. -/
theorem claim1 (init : ℚ) (year month : ℕ) (ts : List Transaction)
    (es : List ActualEntry) (i : ℕ)
    (hi : i < (calculateDailySimulation init year month ts es).length) :
    ((calculateDailySimulation init year month ts es).get ⟨i, hi⟩).dailyDelta =
      round2 ((ts.map (ruleSigned year month (i + 1))).sum) ∧
    ((calculateDailySimulation init year month ts es).get ⟨i, hi⟩).cumulativeIncome =
      round2 (∑ j ∈ Finset.range (i + 1), (ts.map (ruleIncomeMag year month (j + 1))).sum) ∧
    ((calculateDailySimulation init year month ts es).get ⟨i, hi⟩).cumulativeExpenses =
      round2 (∑ j ∈ Finset.range (i + 1), (ts.map (ruleExpenseMag year month (j + 1))).sum) := by
  rw [calculateDailySimulation_get]
  refine ⟨by rw [dayDelta_eq_ruleSigned_sum], ?_, ?_⟩
  · show round2 (∑ j ∈ Finset.range (i + 1), dayIncome year month ts (j + 1)) = _
    congr 1
    exact Finset.sum_congr rfl fun j _ => dayIncome_eq_ruleIncomeMag_sum year month ts (j + 1)
  · show round2 (∑ j ∈ Finset.range (i + 1), dayExpense year month ts (j + 1)) = _
    congr 1
    exact Finset.sum_congr rfl fun j _ => dayExpense_eq_ruleExpenseMag_sum year month ts (j + 1)

theorem claim1_witness :
    ((calculateDailySimulation 0 2025 0 [smoothIncome7] []).get ⟨0, by decide⟩).dailyDelta =
      round2 (([smoothIncome7].map (ruleSigned 2025 0 1)).sum) :=
  (claim1 0 2025 0 [smoothIncome7] [] 0 (by decide)).1

/-- C2: the engine is total (the Lean model is a total function, so no
exception is possible) and for every well-typed input returns exactly
`daysInMonth year month` points, with correct leap-year handling: February
2024 yields 29 points and February 2025 yields 28. -/
theorem claim2 :
    (∀ (init : ℚ) (year month : ℕ) (ts : List Transaction) (es : List ActualEntry),
      (calculateDailySimulation init year month ts es).length = daysInMonth year month) ∧
    daysInMonth 2024 1 = 29 ∧ daysInMonth 2025 1 = 28 ∧
    (calculateDailySimulation 0 2024 1 [] []).length = 29 ∧
    (calculateDailySimulation 0 2025 1 [] []).length = 28 := by
  refine ⟨calculateDailySimulation_length, by decide, by decide, ?_, ?_⟩ <;>
    rw [calculateDailySimulation_length] <;> decide

/-- C6 counterexample: an `Once` expense of exactly 2.875 on day 1 stores
`dailyDelta = -2.87`, although the exact daily delta is `-2.875` and both
round-half-away-from-zero and banker's rounding turn `-2.875` into `-2.88`:
the engine's `Math.round(x*100)/100` rounds ties toward positive infinity,
which on negative half-cent values is neither of the two modes the claim
allows. -/
theorem claim6_counterexample :
    (∃ p ∈ calculateDailySimulation 0 2025 0 [halfCentExpense] [],
      p.dayNumber = 1 ∧ p.dailyDelta = -287 / 100) ∧
    dayDelta 2025 0 [halfCentExpense] 1 = -23 / 8 ∧
    roundHalfAwayFromZero2 (-23 / 8) = -288 / 100 ∧
    roundBankers2 (-23 / 8) = -288 / 100 ∧
    ((-287 : ℚ) / 100) ≠ -288 / 100 := by
  have hdd : dayDelta 2025 0 [halfCentExpense] 1 = -23 / 8 := by
    simp [dayDelta, txDelta, halfCentExpense]
    norm_num
  have hlen : 0 < (calculateDailySimulation 0 2025 0 [halfCentExpense] []).length := by
    rw [calculateDailySimulation_length]
    decide
  have hround : round2 (-23 / 8) = -287 / 100 := by
    rw [round2_eq (-23 / 8) (-287) (by norm_num) (by norm_num)]
    norm_num
  refine ⟨?_, hdd, ?_, ?_, by norm_num⟩
  · refine ⟨(calculateDailySimulation 0 2025 0 [halfCentExpense] []).get ⟨0, hlen⟩,
      List.get_mem _ _ _, ?_, ?_⟩
    · rw [calculateDailySimulation_get]
    · rw [calculateDailySimulation_get]
      show round2 (dayDelta 2025 0 [halfCentExpense] 1) = -287 / 100
      rw [hdd, hround]
  · rw [roundHalfAwayFromZero2, if_pos (by norm_num)]
    have hf : ⌊(-(-23 / 8 : ℚ)) * 100 + 1 / 2⌋ = 288 := by
      rw [Int.floor_eq_iff] <;> norm_num
    rw [hf]
    norm_num
  · rw [roundBankers2, roundHalfEvenInt]
    have hf : ⌊(-23 / 8 : ℚ) * 100⌋ = -288 := by
      rw [Int.floor_eq_iff] <;> norm_num
    rw [hf]
    norm_num

/-- C6 (amended): each of the four stored numeric fields `balance`,
`dailyDelta`, `cumulativeIncome`, `cumulativeExpenses` is the image of its
exact running value under the single rounding function `round2`
(`Math.round(x*100)/100`, i.e. 2-decimal rounding with ties toward positive
infinity), applied consistently to all four fields and to all signs; on
negative exact half-cent values this differs from both round-half-away-from-zero
and banker's rounding. -/
theorem claim6 (init : ℚ) (year month : ℕ) (ts : List Transaction)
    (es : List ActualEntry) (i : ℕ)
    (hi : i < (calculateDailySimulation init year month ts es).length) :
    ((calculateDailySimulation init year month ts es).get ⟨i, hi⟩).balance =
      round2 (init + ∑ j ∈ Finset.range (i + 1), dayDelta year month ts (j + 1)) ∧
    ((calculateDailySimulation init year month ts es).get ⟨i, hi⟩).dailyDelta =
      round2 (dayDelta year month ts (i + 1)) ∧
    ((calculateDailySimulation init year month ts es).get ⟨i, hi⟩).cumulativeIncome =
      round2 (∑ j ∈ Finset.range (i + 1), dayIncome year month ts (j + 1)) ∧
    ((calculateDailySimulation init year month ts es).get ⟨i, hi⟩).cumulativeExpenses =
      round2 (∑ j ∈ Finset.range (i + 1), dayExpense year month ts (j + 1)) := by
  rw [calculateDailySimulation_get]
  exact ⟨rfl, rfl, rfl, rfl⟩

theorem claim6_witness :
    ((calculateDailySimulation 0 2025 0 [halfCentExpense] []).get ⟨0, by decide⟩).dailyDelta =
      round2 (dayDelta 2025 0 [halfCentExpense] 1) :=
  (claim6 0 2025 0 [halfCentExpense] [] 0 (by decide)).2.1

/-- C7: with an empty rule list every stored point has `dailyDelta = 0` and
`balance = round2 initialBalance` — the planned line is flat, and it equals
`initialBalance` exactly whenever `initialBalance` is an exact 2-decimal
amount (the storage rounding of spec §4.1c fixes such values). -/
theorem claim7 (init : ℚ) (year month : ℕ) (es : List ActualEntry) (i : ℕ)
    (hi : i < (calculateDailySimulation init year month [] es).length) :
    ((calculateDailySimulation init year month [] es).get ⟨i, hi⟩).balance = round2 init ∧
    ((calculateDailySimulation init year month [] es).get ⟨i, hi⟩).dailyDelta = 0 ∧
    (round2 init = init →
      ((calculateDailySimulation init year month [] es).get ⟨i, hi⟩).balance = init) := by
  rw [calculateDailySimulation_get]
  have h0 : ∀ d, dayDelta year month [] d = 0 := fun d => by simp [dayDelta]
  have hsum : (∑ j ∈ Finset.range (i + 1), dayDelta year month [] (j + 1)) = 0 :=
    Finset.sum_eq_zero fun j _ => h0 (j + 1)
  have hr0 : round2 0 = 0 := by
    rw [round2, jsRound]
    norm_num
  refine ⟨?_, ?_, ?_⟩
  · show round2 (init + _) = round2 init
    rw [hsum, add_zero]
  · show round2 (dayDelta year month [] (i + 1)) = 0
    rw [h0, hr0]
  · intro h2dp
    show round2 (init + _) = init
    rw [hsum, add_zero, h2dp]

theorem claim7_witness :
    ((calculateDailySimulation 100 2025 0 [] []).get ⟨0, by decide⟩).balance = round2 100 ∧
    ((calculateDailySimulation 100 2025 0 [] []).get ⟨0, by decide⟩).balance = 100 := by
  have h := claim7 100 2025 0 [] 0 (by rw [calculateDailySimulation_length]; decide)
  refine ⟨h.1, h.2.2 ?_⟩
  rw [round2_eq 100 10000 (by norm_num) (by norm_num)]
  norm_num

/-- C8: called with an empty observed-entry list, the engine of
`src/services/simulationEngine.ts` produces exactly the same point sequence —
date, day number, balance, daily delta and both cumulative totals — as the
near-duplicate engine of `src/unnamed/part_002`, and `actualBalance` is absent
from every point of both. -/
theorem claim8 (init : ℚ) (year month : ℕ) (ts : List Transaction) :
    calculateDailySimulation init year month ts [] =
      calculateDailySimulationV0 init year month ts ∧
    (∀ p ∈ calculateDailySimulation init year month ts [], p.actualBalance = none) := by
  have heq : calculateDailySimulation init year month ts [] =
      calculateDailySimulationV0 init year month ts :=
    simLoop_empty_eq_simLoopV0 year month ts (daysInMonth year month) 1 init 0 0
  refine ⟨heq, fun p hp => ?_⟩
  rw [heq] at hp
  exact simLoopV0_actualBalance_none year month ts (daysInMonth year month) 1 init 0 0 p hp

/-- C9: a `Weekly`+`LumpSum` rule whose `dayOfWeek` field is absent behaves
exactly as if `dayOfWeek` were 1 (Monday): its per-day planned contribution is
its signed amount precisely on days whose weekday is 1, and replacing the rule
by its `dayOfWeek := some 1` variant changes nothing — not in the planned
trajectory, not in the reality projection (whose per-rule logic is
`projTxDelta`), and not in the engine version of `src/unnamed/part_002`. -/
theorem claim9 (t : Transaction) (hf : t.frequency = SpendFrequency.WEEKLY)
    (hb : t.weeklyBehavior = some WeeklyBehavior.LUMP_SUM)
    (hd : t.dayOfWeek = none) :
    (∀ dow day, txDelta dow day t =
      if dow = 1 then
        (if t.type = TransactionType.INCOME then t.amount else -t.amount)
      else 0) ∧
    (∀ dow day, txDelta dow day t = txDelta dow day { t with dayOfWeek := some 1 }) ∧
    (∀ dow day, projTxDelta dow day t = projTxDelta dow day { t with dayOfWeek := some 1 }) ∧
    (∀ (init : ℚ) (year month : ℕ) (ts₁ ts₂ : List Transaction) (es : List ActualEntry),
      calculateDailySimulation init year month (ts₁ ++ t :: ts₂) es =
        calculateDailySimulation init year month (ts₁ ++ { t with dayOfWeek := some 1 } :: ts₂) es) ∧
    (∀ (init : ℚ) (year month : ℕ) (ts₁ ts₂ : List Transaction),
      calculateDailySimulationV0 init year month (ts₁ ++ t :: ts₂) =
        calculateDailySimulationV0 init year month (ts₁ ++ { t with dayOfWeek := some 1 } :: ts₂)) := by
  have hdel : ∀ dow day, txDelta dow day t =
      if dow = 1 then
        (if t.type = TransactionType.INCOME then t.amount else -t.amount)
      else 0 := by
    intro dow day
    simp [txDelta, hf, hb, hd]
  have hdel2 : ∀ dow day, txDelta dow day t =
      txDelta dow day { t with dayOfWeek := some 1 } := by
    intro dow day
    simp [txDelta, hf, hb, hd]
  have hinc : ∀ dow day, txIncome dow day t =
      txIncome dow day { t with dayOfWeek := some 1 } := by
    intro dow day
    simp [txIncome, hf, hb, hd]
  have hexp : ∀ dow day, txExpense dow day t =
      txExpense dow day { t with dayOfWeek := some 1 } := by
    intro dow day
    simp [txExpense, hf, hb, hd]
  have hproj : ∀ dow day, projTxDelta dow day t =
      projTxDelta dow day { t with dayOfWeek := some 1 } := by
    intro dow day
    simp [projTxDelta, hf, hb, hd]
  refine ⟨hdel, hdel2, hproj, fun init year month ts₁ ts₂ es => ?_, fun init year month ts₁ ts₂ => ?_⟩
  · exact simLoop_congr_middle year month ts₁ ts₂ t _ es hdel2 hinc hexp hproj
      (daysInMonth year month) 1 init 0 0
  · exact simLoopV0_congr_middle year month ts₁ ts₂ t _ hdel2 hinc hexp
      (daysInMonth year month) 1 init 0 0

theorem claim9_witness :
    (txDelta 1 5 lumpNoDow =
      if 1 = 1 then
        (if lumpNoDow.type = TransactionType.INCOME then lumpNoDow.amount else -lumpNoDow.amount)
      else 0) ∧
    calculateDailySimulation 0 2025 0 ([] ++ lumpNoDow :: []) [] =
      calculateDailySimulation 0 2025 0 ([] ++ { lumpNoDow with dayOfWeek := some 1 } :: []) [] :=
  ⟨(claim9 lumpNoDow rfl rfl rfl).1 1 5,
   (claim9 lumpNoDow rfl rfl rfl).2.2.2.1 0 2025 0 [] [] []⟩

/-- C10: entries sharing one day are resolved deterministically but
asymmetrically — pure functions make determinism automatic, and concretely:
the `actualBalance` stored for a day is the value of the first entry in
input-list order carrying that day (the `find` in the engine), while the
projection anchor used for every day after the maximum observed day is the
last entry in input-list order among those with the maximal day (the tie
behaviour of the `reduce`). -/
theorem claim10 (init : ℚ) (year month : ℕ) (ts : List Transaction)
    (es₁ es₂ : List ActualEntry) (e : ActualEntry) :
    (∀ (h₁ : ∀ x ∈ es₁, x.day ≠ e.day) (i : ℕ)
      (hi : i < (calculateDailySimulation init year month ts (es₁ ++ e :: es₂)).length),
      i + 1 = e.day →
      ((calculateDailySimulation init year month ts (es₁ ++ e :: es₂)).get ⟨i, hi⟩).actualBalance =
        some (round2 e.value)) ∧
    ((∀ x ∈ es₁ ++ e :: es₂, x.day ≤ e.day) → (∀ x ∈ es₂, x.day < e.day) →
      latestActual (es₁ ++ e :: es₂) = some e ∧
      ∀ (i : ℕ)
        (hi : i < (calculateDailySimulation init year month ts (es₁ ++ e :: es₂)).length),
        e.day < i + 1 →
        ((calculateDailySimulation init year month ts (es₁ ++ e :: es₂)).get ⟨i, hi⟩).actualBalance =
          some (round2 (e.value + projectedDeltaSinceReal year month ts e.day (i + 1)))) := by
  constructor
  · intro h₁ i hi hday
    rw [calculateDailySimulation_get]
    show (actualValueFor year month ts (es₁ ++ e :: es₂) (i + 1)).map round2 = _
    have hfind : (es₁ ++ e :: es₂).find? (fun x => x.day == i + 1) = some e := by
      refine find?_append_first es₁ es₂ e _ ?_ ?_
      · intro x hx
        simp only [beq_eq_false_iff_ne, ne_eq]
        rw [hday]
        exact h₁ x hx
      · simp [hday]
    rw [actualValueFor_matching year month ts _ (i + 1) e hfind]
    rfl
  · intro hmax hafter
    have hla : latestActual (es₁ ++ e :: es₂) = some e :=
      latestActual_last_max es₁ es₂ e hmax hafter
    refine ⟨hla, fun i hi hgt => ?_⟩
    rw [calculateDailySimulation_get]
    show (actualValueFor year month ts (es₁ ++ e :: es₂) (i + 1)).map round2 = _
    have hnone : ∀ x ∈ es₁ ++ e :: es₂, x.day ≠ i + 1 := by
      intro x hx
      have := hmax x hx
      omega
    rw [actualValueFor_proj year month ts _ (i + 1) e hnone hla hgt]
    rfl

theorem claim10_witness :
    ((calculateDailySimulation 0 2025 0 []
        ([] ++ (⟨5, 10⟩ : ActualEntry) :: [⟨5, 20⟩])).get
      ⟨4, by rw [calculateDailySimulation_length]; decide⟩).actualBalance =
        some (round2 10) ∧
    latestActual ([⟨5, 10⟩] ++ (⟨5, 20⟩ : ActualEntry) :: []) = some ⟨5, 20⟩ ∧
    ((calculateDailySimulation 0 2025 0 []
        ([⟨5, 10⟩] ++ (⟨5, 20⟩ : ActualEntry) :: [])).get
      ⟨5, by rw [calculateDailySimulation_length]; decide⟩).actualBalance =
        some (round2 (20 + projectedDeltaSinceReal 2025 0 [] 5 6)) := by
  have h1 := (claim10 0 2025 0 [] [] [⟨5, 20⟩] ⟨5, 10⟩).1
    (by intro x hx; cases hx) 4 (by rw [calculateDailySimulation_length]; decide) rfl
  have h2 := (claim10 0 2025 0 [] [⟨5, 10⟩] [] ⟨5, 20⟩).2
    (by intro x hx; fin_cases hx <;> decide) (by intro x hx; cases hx)
  exact ⟨h1, h2.1, h2.2 5 (by rw [calculateDailySimulation_length]; decide) (by decide)⟩

/-- C3: with at least one observed entry and (per the data model) at most one
entry per day, writing `la` for the engine's latest entry — the one with the
maximum `day` — the reality value of day `la.day` is exactly `la.value` (the
stored point carries `round2 la.value`, which is `la.value` itself for exact
2-decimal amounts), and for every day `d > la.day` the projected values of
days `d` and `d - 1` are both defined with difference exactly the planned
`dailyDelta` of day `d` (stated of the engine's exact `actualValue` quantities,
to which the §4.1c 2-decimal rounding is applied only at storage time). -/
theorem claim3 (init : ℚ) (year month : ℕ) (ts : List Transaction)
    (es : List ActualEntry) (la : ActualEntry)
    (hnd : (es.map ActualEntry.day).Nodup) (hla : latestActual es = some la) :
    actualValueFor year month ts es la.day = some la.value ∧
    (∀ (i : ℕ) (hi : i < (calculateDailySimulation init year month ts es).length),
      i + 1 = la.day → round2 la.value = la.value →
      ((calculateDailySimulation init year month ts es).get ⟨i, hi⟩).actualBalance =
        some la.value) ∧
    (∀ d : ℕ, la.day < d → ∃ v w,
      actualValueFor year month ts es d = some v ∧
      actualValueFor year month ts es (d - 1) = some w ∧
      v - w = dayDelta year month ts d) := by
  have hmem : la ∈ es := latestActual_mem hla
  have hle : ∀ x ∈ es, x.day ≤ la.day := latestActual_le hla
  have ha : actualValueFor year month ts es la.day = some la.value := by
    cases hfind : es.find? (fun x => x.day == la.day) with
    | none =>
      have := List.find?_eq_none.mp hfind la hmem
      simp at this
    | some e' =>
      have he'day : e'.day = la.day := by
        have := List.find?_some hfind
        simpa using this
      have he'mem : e' ∈ es := List.mem_of_find?_eq_some hfind
      have heq : e' = la := nodup_day_inj hnd e' he'mem la hmem he'day
      rw [actualValueFor_matching year month ts es la.day e' hfind, heq]
  refine ⟨ha, ?_, ?_⟩
  · intro i hi hday h2dp
    rw [calculateDailySimulation_get]
    show (actualValueFor year month ts es (i + 1)).map round2 = _
    rw [hday, ha]
    simp [h2dp]
  · intro d hd
    have hnone : ∀ x ∈ es, x.day ≠ d := fun x hx => by
      have := hle x hx
      omega
    have hv := actualValueFor_proj year month ts es d la hnone hla hd
    have hstep : projectedDeltaSinceReal year month ts la.day d =
        projectedDeltaSinceReal year month ts la.day (d - 1) + dayDelta year month ts d := by
      have h2 := projectedDeltaSinceReal_succ year month ts la.day (d - 1) (by omega)
      have h3 : d - 1 + 1 = d := by omega
      rw [h3] at h2
      exact h2
    by_cases hcase : d - 1 = la.day
    · refine ⟨la.value + projectedDeltaSinceReal year month ts la.day d, la.value, hv, ?_, ?_⟩
      · rw [hcase]
        exact ha
      · rw [hstep, hcase, projectedDeltaSinceReal_self]
        ring
    · have hnone' : ∀ x ∈ es, x.day ≠ d - 1 := fun x hx => by
        have := hle x hx
        omega
      have hw := actualValueFor_proj year month ts es (d - 1) la hnone' hla (by omega)
      refine ⟨la.value + projectedDeltaSinceReal year month ts la.day d,
        la.value + projectedDeltaSinceReal year month ts la.day (d - 1), hv, hw, ?_⟩
      rw [hstep]
      ring

theorem claim3_witness :
    actualValueFor 2025 0 [smoothIncome7] [⟨10, 1000⟩] 10 = some 1000 ∧
    (∃ v w, actualValueFor 2025 0 [smoothIncome7] [⟨10, 1000⟩] 11 = some v ∧
      actualValueFor 2025 0 [smoothIncome7] [⟨10, 1000⟩] 10 = some w ∧
      v - w = dayDelta 2025 0 [smoothIncome7] 11) := by
  have h := claim3 0 2025 0 [smoothIncome7] [⟨10, 1000⟩] ⟨10, 1000⟩
    (by decide) rfl
  exact ⟨h.1, h.2.2 11 (by decide)⟩

/-- C4: case analysis of the reality trajectory, with the §4.1c 2-decimal
storage rounding applied to the stored field (entries are assumed to carry at
most one value per day, the data-model invariant): a point whose day carries
an observed entry stores that entry's value; a day strictly after the latest
entry stores the latest value plus the sum of the spec's rule-derived daily
deltas over the days since the anchor; a day strictly before the latest entry
with no entry of its own stores nothing; with no entries at all,
`actualBalance` is absent everywhere. -/
theorem claim4 (init : ℚ) (year month : ℕ) (ts : List Transaction)
    (es : List ActualEntry) (hnd : (es.map ActualEntry.day).Nodup)
    (i : ℕ) (hi : i < (calculateDailySimulation init year month ts es).length) :
    (∀ e ∈ es, e.day = i + 1 →
      ((calculateDailySimulation init year month ts es).get ⟨i, hi⟩).actualBalance =
        some (round2 e.value)) ∧
    (∀ la ∈ es, (∀ x ∈ es, x.day ≤ la.day) → la.day < i + 1 →
      ((calculateDailySimulation init year month ts es).get ⟨i, hi⟩).actualBalance =
        some (round2 (la.value +
          ∑ k ∈ Finset.Icc (la.day + 1) (i + 1), (ts.map (ruleSigned year month k)).sum))) ∧
    ((∀ x ∈ es, x.day ≠ i + 1) →
      (∀ la ∈ es, (∀ x ∈ es, x.day ≤ la.day) → i + 1 < la.day) →
      ((calculateDailySimulation init year month ts es).get ⟨i, hi⟩).actualBalance = none) ∧
    (es = [] →
      ((calculateDailySimulation init year month ts es).get ⟨i, hi⟩).actualBalance = none) := by
  have hab : ((calculateDailySimulation init year month ts es).get ⟨i, hi⟩).actualBalance =
      (actualValueFor year month ts es (i + 1)).map round2 := by
    rw [calculateDailySimulation_get]
  rw [hab]
  refine ⟨?_, ?_, ?_, ?_⟩
  · intro e he hday
    cases hfind : es.find? (fun x => x.day == i + 1) with
    | none =>
      have := List.find?_eq_none.mp hfind e he
      simp [hday] at this
    | some e' =>
      have he'day : e'.day = i + 1 := by simpa using List.find?_some hfind
      have he'mem : e' ∈ es := List.mem_of_find?_eq_some hfind
      have heq : e' = e := nodup_day_inj hnd e' he'mem e he (by omega)
      rw [actualValueFor_matching year month ts es (i + 1) e' hfind, heq]
      rfl
  · intro la hmem hmax hlt
    have hesne : es ≠ [] := fun h => by
      subst h
      cases hmem
    obtain ⟨la', hles⟩ : ∃ la', latestActual es = some la' := by
      cases es with
      | nil => exact absurd rfl hesne
      | cons a as => exact ⟨_, rfl⟩
    have hla'mem : la' ∈ es := latestActual_mem hles
    have heq : la' = la :=
      nodup_day_inj hnd la' hla'mem la hmem
        (le_antisymm (hmax la' hla'mem) (latestActual_le hles la hmem))
    rw [heq] at hles
    have hnone : ∀ x ∈ es, x.day ≠ i + 1 := fun x hx => by
      have := hmax x hx
      omega
    rw [actualValueFor_proj year month ts es (i + 1) la hnone hles hlt]
    have hk : la.day + (i + 1 - la.day) = i + 1 := by omega
    have hicc := projectedDeltaSinceReal_eq_Icc year month ts la.day (i + 1 - la.day)
    rw [hk] at hicc
    rw [hicc, Finset.sum_congr rfl fun k _ => dayDelta_eq_ruleSigned_sum year month ts k]
    rfl
  · intro hnone hmaxlt
    cases es with
    | nil => rfl
    | cons a as =>
      obtain ⟨la', hles⟩ : ∃ la', latestActual (a :: as) = some la' := ⟨_, rfl⟩
      have hla'mem : la' ∈ a :: as := latestActual_mem hles
      have hlt : i + 1 < la'.day :=
        hmaxlt la' hla'mem (latestActual_le hles)
      rw [actualValueFor_before year month ts (a :: as) (i + 1) la' hnone hles hlt]
      rfl
  · intro h
    subst h
    rfl

theorem claim4_witness :
    ((calculateDailySimulation 0 2025 0 [] [⟨3, 500⟩]).get
      ⟨2, by rw [calculateDailySimulation_length]; decide⟩).actualBalance =
        some (round2 500) ∧
    ((calculateDailySimulation 0 2025 0 [] [⟨3, 500⟩]).get
      ⟨0, by rw [calculateDailySimulation_length]; decide⟩).actualBalance = none := by
  have h1 := (claim4 0 2025 0 [] [⟨3, 500⟩] (by decide) 2
    (by rw [calculateDailySimulation_length]; decide)).1 ⟨3, 500⟩ (by decide) rfl
  have h2 := (claim4 0 2025 0 [] [⟨3, 500⟩] (by decide) 0
    (by rw [calculateDailySimulation_length]; decide)).2.2.1
    (by intro x hx; fin_cases hx <;> decide)
    (by intro la hla hmax; fin_cases hla <;> decide)
  exact ⟨h1, h2⟩

theorem getLastD_eq_getLast (l : List SimulationPoint) (a : SimulationPoint)
    (h : l ≠ []) : l.getLastD a = l.getLast h := by
  rw [List.getLastD_eq_getLast?, List.getLast?_eq_getLast l h]
  rfl

/-- C5: the weekly aggregation partitions the daily sequence into consecutive
chunks of 7 starting at index 0, the final chunk keeping the remainder — the
count is `⌈n / 7⌉ = (n + 6) / 7`; the k-th weekly point is labelled
`"Week k+1"` in chunk order, snapshots `balance` and `actualBalance` from the
chunk's last daily point, and stores the chunk's positive-delta sum as
`income` and the chunk's absolute negative-delta sum as `expenses` (2-decimal
storage rounding applied, a no-op on engine output whose deltas are already
2-decimal); for a 31-day month there are 5 weekly points and the last one's
`balance` is the 31st daily point's `balance`. -/
theorem claim5 (pts : List SimulationPoint) (hne : pts ≠ []) :
    (aggregateToWeekly pts).length = (pts.length + 6) / 7 ∧
    (∀ (k : ℕ) (hk : k < (aggregateToWeekly pts).length),
      (pts.drop (7 * k)).take 7 ≠ [] ∧
      ((aggregateToWeekly pts).get ⟨k, hk⟩).weekLabel = "Week " ++ toString (k + 1) ∧
      (∃ hck : (pts.drop (7 * k)).take 7 ≠ [],
        ((aggregateToWeekly pts).get ⟨k, hk⟩).balance =
          (((pts.drop (7 * k)).take 7).getLast hck).balance ∧
        ((aggregateToWeekly pts).get ⟨k, hk⟩).actualBalance =
          (((pts.drop (7 * k)).take 7).getLast hck).actualBalance) ∧
      ((aggregateToWeekly pts).get ⟨k, hk⟩).income =
        round2 ((((pts.drop (7 * k)).take 7).map
          (fun p => if p.dailyDelta > 0 then p.dailyDelta else 0)).sum) ∧
      ((aggregateToWeekly pts).get ⟨k, hk⟩).expenses =
        round2 ((((pts.drop (7 * k)).take 7).map
          (fun p => if p.dailyDelta < 0 then |p.dailyDelta| else 0)).sum)) ∧
    (pts.length = 31 →
      (aggregateToWeekly pts).length = 5 ∧
      ∀ (h31 : 30 < pts.length) (h5 : 4 < (aggregateToWeekly pts).length),
        ((aggregateToWeekly pts).get ⟨4, h5⟩).balance = (pts.get ⟨30, h31⟩).balance) := by
  have hlen : (aggregateToWeekly pts).length = (pts.length + 6) / 7 :=
    aggLoop_length pts.length 1 pts (le_refl _)
  refine ⟨hlen, ?_, ?_⟩
  · intro k hk
    have hget : (aggregateToWeekly pts).get ⟨k, hk⟩ =
        mkWeeklyPoint (1 + k) ((pts.drop (7 * k)).take 7) :=
      aggLoop_get pts.length 1 pts (le_refl _) k hk
    have h7k : 7 * k < pts.length := by
      rw [hlen] at hk
      omega
    have hchunkne : (pts.drop (7 * k)).take 7 ≠ [] := by
      intro hc
      have hl : ((pts.drop (7 * k)).take 7).length = min 7 (pts.length - 7 * k) := by
        simp [List.length_take, List.length_drop]
      rw [hc] at hl
      simp at hl
      omega
    refine ⟨hchunkne, ?_, ⟨hchunkne, ?_, ?_⟩, ?_, ?_⟩
    · rw [hget]
      show "Week " ++ toString (1 + k) = "Week " ++ toString (k + 1)
      rw [Nat.add_comm]
    · rw [hget]
      show (((pts.drop (7 * k)).take 7).getLastD _).balance = _
      rw [getLastD_eq_getLast _ _ hchunkne]
    · rw [hget]
      show (((pts.drop (7 * k)).take 7).getLastD _).actualBalance = _
      rw [getLastD_eq_getLast _ _ hchunkne]
    · rw [hget]
      show round2 (((pts.drop (7 * k)).take 7).foldl
        (fun sum p => sum + (if p.dailyDelta > 0 then p.dailyDelta else 0)) 0) = _
      rw [foldl_add_map, zero_add]
    · rw [hget]
      show round2 (((pts.drop (7 * k)).take 7).foldl
        (fun sum p => sum + (if p.dailyDelta < 0 then |p.dailyDelta| else 0)) 0) = _
      rw [foldl_add_map, zero_add]
  · intro h31
    refine ⟨by rw [hlen, h31], ?_⟩
    intro h31' h5
    have hget : (aggregateToWeekly pts).get ⟨4, h5⟩ =
        mkWeeklyPoint (1 + 4) ((pts.drop (7 * 4)).take 7) :=
      aggLoop_get pts.length 1 pts (le_refl _) 4 h5
    rw [hget]
    have hdlen : (pts.drop (7 * 4)).length = 3 := by
      simp [List.length_drop, h31]
    have htake : (pts.drop (7 * 4)).take 7 = pts.drop (7 * 4) :=
      List.take_of_length_le (by rw [hdlen]; omega)
    have hdne : pts.drop (7 * 4) ≠ [] := by
      intro hc
      rw [hc] at hdlen
      simp at hdlen
    show ((((pts.drop (7 * 4)).take 7).getLastD _)).balance = _
    rw [htake, getLastD_eq_getLast _ _ hdne, List.getLast_eq_getElem]
    have h2 : (pts.drop (7 * 4)).length - 1 = 2 := by omega
    simp only [h2, List.getElem_drop, List.get_eq_getElem]

theorem aggregateToWeekly_length (pts : List SimulationPoint) :
    (aggregateToWeekly pts).length = (pts.length + 6) / 7 :=
  aggLoop_length pts.length 1 pts (le_refl _)

theorem claim5_witness :
    (aggregateToWeekly (calculateDailySimulation 100 2025 0 [] [])).length = 5 ∧
    ((aggregateToWeekly (calculateDailySimulation 100 2025 0 [] [])).get
      ⟨0, by rw [aggregateToWeekly_length, calculateDailySimulation_length]; decide⟩).weekLabel =
      "Week " ++ toString (0 + 1) := by
  have hne : calculateDailySimulation 100 2025 0 [] [] ≠ [] := by
    apply List.length_pos.mp
    rw [calculateDailySimulation_length]
    decide
  have h := claim5 (calculateDailySimulation 100 2025 0 [] []) hne
  refine ⟨(h.2.2 (by rw [calculateDailySimulation_length]; decide)).1, ?_⟩
  exact (h.2.1 0 (by rw [aggregateToWeekly_length, calculateDailySimulation_length]; decide)).2.1
